import Mathlib

/-!
# vmsocket guest driver: shallow embedding of `src/vmsocket.c`

The driver's file operations (`vmsocket_open`, `vmsocket_release`,
`vmsocket_ioctl`, `vmsocket_read`, `vmsocket_write`) and its PCI discovery
callback (`vmsocket_probe`) are embedded as pure functions.

* Memory the driver owns is explicit state: the device table, the minor
  counter and, per instance, the bytes of the shared control block.
* Everything the driver calls into (register reads, the user-copy primitives,
  the PCI and character-device services) is recorded in an event trace, in
  program order; the values those calls return are arguments of the model.
* C integers are `Nat`/`Int` with the conversions written out (`readl` is
  32-bit unsigned, `int` is 32-bit two's complement).
-/

namespace VMSocket

/-! ## Constants -/

/-- Value of `EBUSY` in `errno.h`. -/
def EBUSY : Int := 16

/-- Value of `EFAULT` in `errno.h`. -/
def EFAULT : Int := 14

/-- Value of `sizeof(dev->ctrl->path)`: the field is `char path[1024]`. -/
def PATH_SIZE : Nat := 1024

/-- Byte offset of `bytes_to_read` in `VMSocketCtrl` (it follows `path[1024]`). -/
def OFF_BYTES_TO_READ : Nat := PATH_SIZE

/-- Byte offset of `bytes_to_write` in `VMSocketCtrl`. -/
def OFF_BYTES_TO_WRITE : Nat := PATH_SIZE + 4

/-- Value of `sizeof(VMSocketCtrl)`: 1024 path bytes and two `uint32_t`. -/
def CTRL_SIZE : Nat := PATH_SIZE + 8

/-- Number of entries of the static table `vmsocket_dev[128]`. -/
def VMSOCKET_NDEV : Nat := 128

/-- Offset of the connect register, `VMSOCKET_CONNECT_L_REG`. -/
def VMSOCKET_CONNECT_L_REG : Nat := 0x00

/-- Offset of the read register, `VMSOCKET_READ_L_REG`. -/
def VMSOCKET_READ_L_REG : Nat := 0x20

/-- Offset of the write register, `VMSOCKET_WRITE_L_REG`. -/
def VMSOCKET_WRITE_L_REG : Nat := 0x40

/-- Offset of the close register, `VMSOCKET_CLOSE_L_REG`. -/
def VMSOCKET_CLOSE_L_REG : Nat := 0x80

/-! ## Machine integers -/

/-- Conversion to `uint32_t`. -/
def u32 (n : Nat) : Nat := n % 2 ^ 32

/-- Conversion of a 32-bit unsigned value to `int` (two's complement). -/
def int32 (n : Nat) : Int :=
  if n % 2 ^ 32 < 2 ^ 31 then ((n % 2 ^ 32 : Nat) : Int) else ((n % 2 ^ 32 : Nat) : Int) - 2 ^ 32

/-- Wrap-around of an `int` computation (the arithmetic of `atomic_t`). -/
def wrap32 (i : Int) : Int := (i + 2 ^ 31) % 2 ^ 32 - 2 ^ 31

/-- Conversion of an `int` to the unsigned type of width `bits` of the length
parameter of `copy_to_user` (`unsigned` or `unsigned long`, 32 or 64 bits,
by kernel and architecture). -/
def to_ulong (bits : Nat) (i : Int) : Nat := (i % 2 ^ bits).toNat

/-- Conversion of a 32-bit unsigned value to `ssize_t` of width `bits`. -/
def to_ssize (bits : Nat) (n : Nat) : Int :=
  if n % 2 ^ bits < 2 ^ (bits - 1) then ((n % 2 ^ bits : Nat) : Int)
  else ((n % 2 ^ bits : Nat) : Int) - 2 ^ bits

/-- The value a register read yields: `readl` returns 32 bits. -/
def readl (v : Nat) : Nat := u32 v

/-! ## Control block memory

The control block is the byte image of `VMSocketCtrl`: `path` at offsets
`0..1023`, `bytes_to_read` at `1024..1027`, `bytes_to_write` at `1028..1031`
(no padding: both offsets are multiples of four). The 32-bit fields are laid
out least significant byte first, as on the x86 guests the device exists for. -/

/-- Read of a `uint32_t` field at byte offset `off`. -/
def load32 (mem : List Nat) (off : Nat) : Nat :=
  mem.getD off 0 + 256 * mem.getD (off + 1) 0 + 65536 * mem.getD (off + 2) 0
    + 16777216 * mem.getD (off + 3) 0

/-- Assignment to a `uint32_t` field at byte offset `off`. -/
def store32 (mem : List Nat) (off : Nat) (v : Nat) : List Nat :=
  (((mem.set off (u32 v % 256)).set (off + 1) (u32 v / 256 % 256)).set (off + 2)
    (u32 v / 65536 % 256)).set (off + 3) (u32 v / 16777216 % 256)

/-- The field `ctrl->bytes_to_read`. -/
def bytes_to_read (mem : List Nat) : Nat := load32 mem OFF_BYTES_TO_READ

/-- The field `ctrl->bytes_to_write`. -/
def bytes_to_write (mem : List Nat) : Nat := load32 mem OFF_BYTES_TO_WRITE

/-- The `path` field read back as a C string that ends at the first NUL or at
the end of the 1024-byte buffer, whichever comes first. -/
def ctrl_path (mem : List Nat) : List Nat :=
  (mem.take PATH_SIZE).takeWhile (fun b => b != 0)

/-- The part of the caller's string that `vmsocket_ioctl` is to copy: the
bytes in front of the first NUL, cut at the size of the path field. -/
def copied_path (path : List Nat) : List Nat :=
  (path.take PATH_SIZE).takeWhile (fun b => b != 0)

/-- The control block read as a C string from offset 0 with no regard for the
field boundary: the bytes before the first NUL. -/
def cstring (mem : List Nat) : List Nat := mem.takeWhile (fun b => b != 0)

/-! ## Data model -/

/-- Calls that leave the driver, in program order. -/
inductive Event where
  | store_path (index : Nat) (value : Nat)
  | store_bytes_to_read (value : Nat)
  | store_bytes_to_write (value : Nat)
  | readl (offset : Nat)
  | copy_to_user (n : Nat)
  | copy_from_user (n : Nat)
  | pci_enable_device
  | pci_request_regions
  | pci_iomap (bar : Nat) (maxlen : Nat)
  | pci_iounmap (ptr : Nat)
  | pci_release_regions
  | pci_disable_device
  | cdev_add (major : Nat) (minor : Nat)
  | class_create
  | device_create (minor : Nat)
  deriving DecidableEq, Repr

/-- One entry of the table, `struct vmsocket_dev`. Pointers are addresses
(`0` is `NULL`); `ctrl_mem` is the memory `ctrl` points to. The embedded
`struct cdev` is kernel-owned and appears only through `Event.cdev_add`. -/
structure vmsocket_dev where
  pdev : Nat
  regs : Nat
  regaddr : Nat
  reg_size : Nat
  in_buffer : Nat
  in_size : Nat
  in_addr : Nat
  out_buffer : Nat
  out_size : Nat
  out_addr : Nat
  ctrl : Nat
  ctrl_size : Nat
  ctrl_addr : Nat
  available : Int
  ctrl_mem : List Nat
  deriving DecidableEq, Repr

/-- The driver's globals: the table `vmsocket_dev[128]`, the class pointer
`fc`, `vmsocket_major` and `vmsocket_minor`. -/
structure State where
  vmsocket_dev : List vmsocket_dev
  fc : Nat
  vmsocket_major : Nat
  vmsocket_minor : Nat
  deriving DecidableEq, Repr

/-- The part of `struct file` the driver uses: `private_data`, as the index of
the table entry it points to (`none` while unset). -/
structure file where
  private_data : Option Nat
  deriving DecidableEq, Repr

/-- A PCI device as the probe callback sees it: its handle and what the kernel
services answer for it. -/
structure pci_dev where
  handle : Nat
  enable_result : Int
  request_result : Int
  resource_start : Nat → Nat
  resource_len : Nat → Nat
  iomap : Nat → Nat
  cdev_add_result : Int
  class_create_result : Nat

/-- Executions the C semantics leaves undefined. -/
inductive Fault where
  | out_of_bounds (index : Nat)
  deriving DecidableEq, Repr

/-! ## File operations -/

/-- The call `atomic_dec_and_test`: decrement, and report whether the result is zero. -/
def atomic_dec_and_test (v : Int) : Bool × Int := (wrap32 (v - 1) == 0, wrap32 (v - 1))

/-- The call `atomic_inc`. -/
def atomic_inc (v : Int) : Int := wrap32 (v + 1)

/-- Embedding of `vmsocket_open` (lines 99-110). `minor` is `MINOR(inode->i_rdev)`. -/
def vmsocket_open (st : State) (minor : Nat) (filp : file) :
    Except Fault (Int × State × file) :=
  match st.vmsocket_dev[minor]? with
  | none => .error (.out_of_bounds minor)
  | some dev =>
    let (is_zero, a1) := atomic_dec_and_test dev.available
    if !is_zero then
      let a2 := atomic_inc a1
      .ok (-EBUSY, { st with vmsocket_dev := st.vmsocket_dev.set minor { dev with available := a2 } },
        filp)
    else
      .ok (0, { st with vmsocket_dev := st.vmsocket_dev.set minor { dev with available := a1 } },
        { filp with private_data := some minor })

/-- Embedding of `vmsocket_release` (lines 112-121). `dev` is the entry
`filp->private_data` points to, `close_reg` what the close register returns. -/
def vmsocket_release (dev : vmsocket_dev) (close_reg : Nat) :
    Int × vmsocket_dev × List Event :=
  let status := int32 (readl close_reg)
  (status, { dev with available := atomic_inc dev.available },
    [Event.readl VMSOCKET_CLOSE_L_REG])

/-- The copy loop of `vmsocket_ioctl` (lines 129-130):
`for (size = 0; size < sizeof(path) && path[size] != 0; size++) ctrl->path[size] = path[size];`
from the state `(size, mem)`, with the stores it makes appended to `tr`.
`path` holds the bytes at the caller's pointer; past its end the memory reads
as NUL. At most `fuel` iterations are run; the bound `size < sizeof(path)`
makes `PATH_SIZE` iterations enough (`ioctl_copy_exit`). -/
def ioctl_copy (path : List Nat) : Nat → Nat → List Nat → List Event →
    Nat × List Nat × List Event
  | 0, size, mem, tr => (size, mem, tr)
  | fuel + 1, size, mem, tr =>
    if size < PATH_SIZE ∧ path.getD size 0 ≠ 0 then
      ioctl_copy path fuel (size + 1) (mem.set size (path.getD size 0))
        (tr ++ [Event.store_path size (path.getD size 0)])
    else (size, mem, tr)

/-- Embedding of `vmsocket_ioctl` (lines 123-139). `connect_reg` is what the
connect register returns. The store `ctrl->path[size] = 0` of line 131 is
made at whatever `size` the loop ends with. -/
def vmsocket_ioctl (dev : vmsocket_dev) (path : List Nat) (connect_reg : Nat) :
    Int × vmsocket_dev × List Event :=
  let (size, mem, stores) := ioctl_copy path PATH_SIZE 0 dev.ctrl_mem []
  let mem := mem.set size 0
  let trace := stores ++ [Event.store_path size 0, Event.readl VMSOCKET_CONNECT_L_REG]
  if readl connect_reg ≠ 0 then (-1, { dev with ctrl_mem := mem }, trace)
  else (0, { dev with ctrl_mem := mem }, trace)

/-- The poll loop of `vmsocket_read` (line 147):
`while ((readed = readl(READ_REG)) > (int) bytes_to_read) ;`
over the values the register returns. Result: `readed`, the number of register
reads, and the values not consumed; `none` when the values run out before the
loop ends. -/
def read_poll (limit : Int) : List Nat → Option (Int × Nat × List Nat)
  | [] => none
  | v :: rest =>
    if int32 (readl v) > limit then
      (read_poll limit rest).map (fun r => (r.1, r.2.1 + 1, r.2.2))
    else some (int32 (readl v), 1, rest)

/-- Result of `vmsocket_read`. -/
structure ReadResult where
  ret : Int
  dev : vmsocket_dev
  polls : Nat
  copy_len : Nat
  trace : List Event
  deriving DecidableEq, Repr

/-- Embedding of `vmsocket_read` (lines 141-157). `bits` is the width of the
length parameter of `copy_to_user`, `regs` the successive values of the read register,
`copy_result` what `copy_to_user` returns (the number of bytes left uncopied). -/
def vmsocket_read (bits : Nat) (dev : vmsocket_dev) (count : Nat) (regs : List Nat)
    (copy_result : Nat) : Option ReadResult :=
  let btr := u32 (min count dev.in_size)
  let mem := store32 dev.ctrl_mem OFF_BYTES_TO_READ btr
  match read_poll (int32 (bytes_to_read mem)) regs with
  | none => none
  | some (readed, polls, _) =>
    let n := to_ulong bits readed
    let trace := [Event.store_bytes_to_read btr]
      ++ List.replicate polls (Event.readl VMSOCKET_READ_L_REG) ++ [Event.copy_to_user n]
    some { ret := if copy_result ≠ 0 then -EFAULT else readed,
           dev := { dev with ctrl_mem := mem }, polls := polls, copy_len := n, trace := trace }

/-- Embedding of `vmsocket_write` (lines 159-166). `bits` is the width of
`ssize_t`, `copy_result` what
`copy_from_user` returns, `write_reg` what the write register returns. -/
def vmsocket_write (bits : Nat) (dev : vmsocket_dev) (count : Nat) (copy_result : Nat)
    (write_reg : Nat) : Int × vmsocket_dev × List Event :=
  let btw := u32 (min count dev.out_size)
  let mem := store32 dev.ctrl_mem OFF_BYTES_TO_WRITE btw
  let n := bytes_to_write mem
  if copy_result ≠ 0 then
    (-EFAULT, { dev with ctrl_mem := mem },
      [Event.store_bytes_to_write btw, Event.copy_from_user n])
  else
    (to_ssize bits (readl write_reg), { dev with ctrl_mem := mem },
      [Event.store_bytes_to_write btw, Event.copy_from_user n,
        Event.readl VMSOCKET_WRITE_L_REG])

/-! ## Discovery -/

/-- Store into the table entry `vmsocket_dev[vmsocket_minor]`. -/
def put_dev (st : State) (dev : vmsocket_dev) : State :=
  { st with vmsocket_dev := st.vmsocket_dev.set st.vmsocket_minor dev }

/-- Embedding of `vmsocket_probe` (lines 191-278). The table has
`VMSOCKET_NDEV` entries; indexing it at `vmsocket_minor` past its end is
outside the C semantics and reported as `Fault.out_of_bounds`. The labels
`ctrl_release`, `out_release`, `in_release`, `reg_release` and `pci_disable`
fall through to one another as in the source. -/
def vmsocket_probe (st : State) (pdev : pci_dev) : Except Fault (Int × State × List Event) :=
  let result := pdev.enable_result
  if result ≠ 0 then .ok (result, st, [Event.pci_enable_device])
  else
    match st.vmsocket_dev[st.vmsocket_minor]? with
    | none => .error (.out_of_bounds st.vmsocket_minor)
    | some d0 =>
      let d1 := { d0 with pdev := pdev.handle }
      let t1 := [Event.pci_enable_device, Event.pci_request_regions]
      let pci_disable := [Event.pci_disable_device]
      let reg_release := Event.pci_release_regions :: pci_disable
      if pdev.request_result < 0 then .ok (-EBUSY, put_dev st d1, t1 ++ pci_disable)
      else
        let d2 := { d1 with regaddr := u32 (pdev.resource_start 0),
                            reg_size := u32 (pdev.resource_len 0),
                            regs := pdev.iomap 0 }
        let t2 := t1 ++ [Event.pci_iomap 0 0x100]
        if d2.regs = 0 then .ok (-EBUSY, put_dev st d2, t2 ++ reg_release)
        else
          let in_release := Event.pci_iounmap d2.regs :: reg_release
          let d3 := { d2 with in_addr := u32 (pdev.resource_start 1),
                              in_buffer := pdev.iomap 1,
                              in_size := u32 (pdev.resource_len 1) }
          let t3 := t2 ++ [Event.pci_iomap 1 0]
          if d3.in_buffer = 0 then .ok (-EBUSY, put_dev st d3, t3 ++ in_release)
          else
            let out_release := Event.pci_iounmap d3.in_buffer :: in_release
            let d4 := { d3 with out_addr := u32 (pdev.resource_start 2),
                                out_buffer := pdev.iomap 2,
                                out_size := u32 (pdev.resource_len 2) }
            let t4 := t3 ++ [Event.pci_iomap 2 0]
            if d4.out_buffer = 0 then .ok (-EBUSY, put_dev st d4, t4 ++ out_release)
            else
              let ctrl_release := Event.pci_iounmap d4.out_buffer :: out_release
              let d5 := { d4 with ctrl_addr := u32 (pdev.resource_start 3),
                                  ctrl := pdev.iomap 3,
                                  ctrl_size := u32 (pdev.resource_len 3) }
              let t5 := t4 ++ [Event.pci_iomap 3 0]
              if d5.ctrl = 0 then .ok (-EBUSY, put_dev st d5, t5 ++ ctrl_release)
              else
                let d6 := { d5 with available := 1 }
                let t6 := t5 ++ [Event.cdev_add st.vmsocket_major st.vmsocket_minor]
                let (fc, t7) :=
                  if st.fc = 0 then (pdev.class_create_result, t6 ++ [Event.class_create])
                  else (st.fc, t6)
                let t8 := t7 ++ [Event.device_create st.vmsocket_minor]
                .ok (0, { put_dev st d6 with fc := fc, vmsocket_minor := st.vmsocket_minor + 1 },
                  t8)

/-- The pointers handed to `pci_iounmap`, in call order. -/
def unmapped (tr : List Event) : List Nat :=
  tr.filterMap (fun e => match e with
    | Event.pci_iounmap p => some p
    | _ => none)

/-- The regions handed to `pci_iomap`, in call order. -/
def mapped (tr : List Event) : List Nat :=
  tr.filterMap (fun e => match e with
    | Event.pci_iomap bar _ => some bar
    | _ => none)

/-- The minors for which an endpoint was registered or published
(`cdev_add`, `device_create`). -/
def published (tr : List Event) : List Nat :=
  tr.filterMap (fun e => match e with
    | Event.cdev_add _ m => some m
    | Event.device_create m => some m
    | _ => none)

/-! ## Sample inputs -/

/-- A control block image with `bytes_to_read = 7` and `bytes_to_write = 9`. -/
def sample_ctrl : List Nat := List.replicate PATH_SIZE 0 ++ [7, 0, 0, 0, 9, 0, 0, 0]

/-- A mapped, closed instance with 4096-byte input and 2048-byte output buffers. -/
def sample_dev : vmsocket_dev :=
  { pdev := 1, regs := 0x1000, regaddr := 0xfe000000, reg_size := 0x100,
    in_buffer := 0x2000, in_size := 4096, in_addr := 0xfe100000,
    out_buffer := 0x4000, out_size := 2048, out_addr := 0xfe200000,
    ctrl := 0x6000, ctrl_size := 4096, ctrl_addr := 0xfe300000,
    available := 1, ctrl_mem := sample_ctrl }

/-- The instance `sample_dev` with an input buffer of 2^31 bytes. -/
def wide_dev : vmsocket_dev := { sample_dev with in_size := 0x80000000 }

/-- A PCI device for which every kernel service succeeds. -/
def sample_pdev : pci_dev :=
  { handle := 2, enable_result := 0, request_result := 0,
    resource_start := fun bar => 0xfe000000 + 0x100000 * bar,
    resource_len := fun _ => 4096,
    iomap := fun bar => 0x1000 * (bar + 1),
    cdev_add_result := 0, class_create_result := 0x9000 }

/-- A PCI device whose region `k` cannot be mapped. -/
def failing_pdev (k : Nat) : pci_dev :=
  { sample_pdev with iomap := fun bar => if bar = k then 0 else 0x1000 * (bar + 1) }

/-- Globals with `n` registered instances. -/
def sample_state (n : Nat) : State :=
  { vmsocket_dev := List.replicate VMSOCKET_NDEV sample_dev, fc := 0x9000,
    vmsocket_major := 250, vmsocket_minor := n }

/-- The offsets of the registers read, in call order. -/
def register_reads (tr : List Event) : List Nat :=
  tr.filterMap (fun e => match e with
    | Event.readl off => some off
    | _ => none)

/-- The indices of `ctrl->path[...]` stored to, in program order. -/
def path_stores (tr : List Event) : List Nat :=
  tr.filterMap (fun e => match e with
    | Event.store_path i _ => some i
    | _ => none)

/-- The lengths handed to `copy_to_user` and `copy_from_user`, in call order. -/
def copy_lengths (tr : List Event) : List Nat :=
  tr.filterMap (fun e => match e with
    | Event.copy_to_user n => some n
    | Event.copy_from_user n => some n
    | _ => none)

/-- A path of 1024 bytes `A`, none of them NUL. -/
def long_path : List Nat := List.replicate PATH_SIZE 65

/-- The path `"/tmp/sock"`. -/
def tmp_sock : List Nat := [47, 116, 109, 112, 47, 115, 111, 99, 107]

/-! ## Machine-integer and memory lemmas -/

theorem load32_store32 (mem : List Nat) (off v : Nat) (h : off + 4 ≤ mem.length) :
    load32 (store32 mem off v) off = u32 v := by
  have h0 : off < mem.length := by omega
  have h1 : off + 1 < mem.length := by omega
  have h2 : off + 2 < mem.length := by omega
  have h3 : off + 3 < mem.length := by omega
  have hv : u32 v < 2 ^ 32 := Nat.mod_lt _ (by norm_num)
  simp only [load32, store32, List.getD_eq_getElem?_getD, List.getElem?_set, List.length_set]
  simp [h0, h1, h2, h3]
  omega

theorem load32_append (pre rest : List Nat) (i : Nat) :
    load32 (pre ++ rest) (pre.length + i) = load32 rest i := by
  simp [load32, List.getElem?_append_right, Nat.add_assoc]

theorem u32_of_lt (n : Nat) (h : n < 2 ^ 32) : u32 n = n := Nat.mod_eq_of_lt h

theorem int32_of_lt (n : Nat) (h : n < 2 ^ 31) : int32 n = (n : Int) := by
  have h1 : n % 2 ^ 32 = n := Nat.mod_eq_of_lt (by omega)
  unfold int32
  rw [h1, if_pos h]

/-! ## The copy loop of `vmsocket_ioctl` -/

/-- The loop run over a path whose remaining bytes `todo` are all non-zero and
fit below `PATH_SIZE`: it ends with `size` at the end of the path and `todo`
written over the memory in front of it. -/
theorem ioctl_copy_run (path : List Nat) :
    ∀ (todo done pre rest : List Nat) (fuel : Nat) (tr : List Event),
      path = done ++ todo → pre.length = done.length → todo.length ≤ fuel →
      done.length + todo.length ≤ PATH_SIZE → (∀ b ∈ todo, b ≠ 0) →
      todo.length ≤ rest.length →
      ((ioctl_copy path fuel done.length (pre ++ rest) tr).1 = path.length ∧
       (ioctl_copy path fuel done.length (pre ++ rest) tr).2.1
          = pre ++ todo ++ rest.drop todo.length) := by
  intro todo
  induction todo with
  | nil =>
    intro done pre rest fuel tr hp hpre _ _ _ _
    have hget : path.getD done.length 0 = 0 := by
      rw [hp]; simp
    cases fuel with
    | zero => simp [ioctl_copy, hp]
    | succ f => simp [ioctl_copy, hget, hp]
  | cons v t ih =>
    intro done pre rest fuel tr hp hpre hfuel hsize hnz hrest
    obtain ⟨f, rfl⟩ : ∃ f, fuel = f + 1 := ⟨fuel - 1, by simp at hfuel; omega⟩
    obtain ⟨r, rest', rfl⟩ : ∃ r rest', rest = r :: rest' := by
      cases rest with
      | nil => simp at hrest
      | cons r rest' => exact ⟨r, rest', rfl⟩
    have hget : path.getD done.length 0 = v := by
      rw [hp, List.getD_eq_getElem?_getD, List.getElem?_append_right (Nat.le_refl _)]
      simp
    have hv : v ≠ 0 := hnz v (by simp)
    have hlt : done.length < PATH_SIZE := by simp at hsize; omega
    have hset : (pre ++ r :: rest').set done.length v = (pre ++ [v]) ++ rest' := by
      rw [← hpre]; simp
    have hstep : ioctl_copy path (f + 1) done.length (pre ++ r :: rest') tr
        = ioctl_copy path f (done ++ [v]).length ((pre ++ [v]) ++ rest')
            (tr ++ [Event.store_path done.length v]) := by
      rw [ioctl_copy, if_pos ⟨hlt, by rw [hget]; exact hv⟩, hget, hset]
      simp
    rw [hstep]
    have := ih (done ++ [v]) (pre ++ [v]) rest' f (tr ++ [Event.store_path done.length v])
      (by simp [hp]) (by simp [hpre]) (by simp at hfuel; omega)
      (by simp at hsize ⊢; omega) (fun b hb => hnz b (by simp [hb]))
      (by simp at hrest; omega)
    simpa using this

/-- The loop ends for every path: started with `size + fuel ≥ PATH_SIZE`, it
stops at a `size` where its condition is false, and never past `PATH_SIZE`. -/
theorem ioctl_copy_exit (path : List Nat) :
    ∀ (fuel size : Nat) (mem : List Nat) (tr : List Event),
      PATH_SIZE ≤ size + fuel → size ≤ PATH_SIZE →
      (ioctl_copy path fuel size mem tr).1 ≤ PATH_SIZE ∧
      ¬ ((ioctl_copy path fuel size mem tr).1 < PATH_SIZE ∧
          path.getD (ioctl_copy path fuel size mem tr).1 0 ≠ 0) := by
  intro fuel
  induction fuel with
  | zero =>
    intro size mem tr h1 h2
    simp only [ioctl_copy]
    constructor
    · exact h2
    · rintro ⟨h, -⟩; omega
  | succ f ih =>
    intro size mem tr h1 h2
    by_cases hc : size < PATH_SIZE ∧ path.getD size 0 ≠ 0
    · rw [ioctl_copy, if_pos hc]
      exact ih _ _ _ (by omega) (by omega)
    · rw [ioctl_copy, if_neg hc]
      exact ⟨h2, hc⟩

/-- The stores of the loop: the events it appends are the stores of
`path[i]` at the successive indices `i = size, size + 1, ...` up to the index
it ends with. -/
theorem ioctl_copy_trace (path : List Nat) :
    ∀ (fuel size : Nat) (mem : List Nat) (tr : List Event),
      (ioctl_copy path fuel size mem tr).2.2 = tr ++
          (List.range' size ((ioctl_copy path fuel size mem tr).1 - size)).map
            (fun i => Event.store_path i (path.getD i 0)) ∧
        size ≤ (ioctl_copy path fuel size mem tr).1 := by
  intro fuel
  induction fuel with
  | zero =>
    intro size mem tr
    simp [ioctl_copy]
  | succ f ih =>
    intro size mem tr
    by_cases hc : size < PATH_SIZE ∧ path.getD size 0 ≠ 0
    · obtain ⟨h1, h2⟩ :=
        ih (size + 1) (mem.set size (path.getD size 0))
          (tr ++ [Event.store_path size (path.getD size 0)])
      rw [ioctl_copy, if_pos hc]
      refine ⟨?_, by omega⟩
      have : (ioctl_copy path f (size + 1) (mem.set size (path.getD size 0))
          (tr ++ [Event.store_path size (path.getD size 0)])).1 - size
          = ((ioctl_copy path f (size + 1) (mem.set size (path.getD size 0))
          (tr ++ [Event.store_path size (path.getD size 0)])).1 - (size + 1)) + 1 := by omega
      rw [this, List.range'_succ, h1]
      simp
    · rw [ioctl_copy, if_neg hc]
      simp

/-! ## `vmsocket_ioctl` -/

theorem path_stores_append (a b : List Event) :
    path_stores (a ++ b) = path_stores a ++ path_stores b := by
  simp [path_stores, List.filterMap_append]

theorem path_stores_map (g : Nat → Nat) (l : List Nat) :
    path_stores (l.map (fun i => Event.store_path i (g i))) = l := by
  induction l with
  | nil => rfl
  | cons a t ih =>
    simp only [path_stores, List.map_cons, List.filterMap_cons] at ih ⊢
    rw [ih]

/-- The function `vmsocket_ioctl` in terms of the state `c` its copy loop ends in. -/
theorem vmsocket_ioctl_eq (dev : vmsocket_dev) (path : List Nat) (v : Nat)
    (c : Nat × List Nat × List Event) (hc : ioctl_copy path PATH_SIZE 0 dev.ctrl_mem [] = c) :
    vmsocket_ioctl dev path v =
      ((if readl v = 0 then 0 else -1), { dev with ctrl_mem := c.2.1.set c.1 0 },
        c.2.2 ++ [Event.store_path c.1 0, Event.readl VMSOCKET_CONNECT_L_REG]) := by
  unfold vmsocket_ioctl
  rw [hc]
  rcases c with ⟨size, mem, stores⟩
  by_cases h : readl v = 0 <;> simp [h]

/-- The trace of `vmsocket_ioctl`: the stores of the loop, the store of the
terminator, then the register read. -/
theorem vmsocket_ioctl_trace (dev : vmsocket_dev) (path : List Nat) (v : Nat) :
    (vmsocket_ioctl dev path v).2.2 =
      (List.range (ioctl_copy path PATH_SIZE 0 dev.ctrl_mem []).1).map
          (fun i => Event.store_path i (path.getD i 0))
        ++ [Event.store_path (ioctl_copy path PATH_SIZE 0 dev.ctrl_mem []).1 0,
            Event.readl VMSOCKET_CONNECT_L_REG] := by
  rw [vmsocket_ioctl_eq dev path v _ rfl]
  have h := (ioctl_copy_trace path PATH_SIZE 0 dev.ctrl_mem []).1
  simp only [List.nil_append, Nat.sub_zero] at h
  simp only [h, List.range_eq_range']

/-- The control block after `vmsocket_ioctl` on a path of non-zero bytes that
is no longer than the path field: the path, a NUL right after it, and the
old bytes behind. -/
theorem vmsocket_ioctl_mem (dev : vmsocket_dev) (path : List Nat) (v : Nat)
    (hnz : ∀ b ∈ path, b ≠ 0) (hlen : path.length ≤ PATH_SIZE)
    (hmem : PATH_SIZE < dev.ctrl_mem.length) :
    (ioctl_copy path PATH_SIZE 0 dev.ctrl_mem []).1 = path.length ∧
    (vmsocket_ioctl dev path v).2.1.ctrl_mem
      = path ++ 0 :: dev.ctrl_mem.drop (path.length + 1) := by
  have h := ioctl_copy_run path path [] [] dev.ctrl_mem PATH_SIZE [] (by simp) rfl hlen
    (by simpa using hlen) hnz (by omega)
  simp only [List.length_nil, List.nil_append] at h
  refine ⟨h.1, ?_⟩
  rw [vmsocket_ioctl_eq dev path v _ rfl]
  simp only [h.1, h.2]
  rw [List.set_append_right _ _ (Nat.le_refl _), Nat.sub_self]
  have hlt : path.length < dev.ctrl_mem.length := by omega
  rw [List.drop_eq_getElem_cons hlt, List.set_cons_zero]

/-- The index the copy loop ends with does not depend on the memory it
writes to or on the trace so far. -/
theorem ioctl_copy_size (path : List Nat) :
    ∀ (fuel size : Nat) (mem mem' : List Nat) (tr tr' : List Event),
      (ioctl_copy path fuel size mem tr).1 = (ioctl_copy path fuel size mem' tr').1 := by
  intro fuel
  induction fuel with
  | zero => intro size mem mem' tr tr'; rfl
  | succ f ih =>
    intro size mem mem' tr tr'
    by_cases hc : size < PATH_SIZE ∧ path.getD size 0 ≠ 0
    · rw [ioctl_copy, if_pos hc, ioctl_copy, if_pos hc]
      exact ih _ _ _ _ _
    · rw [ioctl_copy, if_neg hc, ioctl_copy, if_neg hc]

/-- The loop run over any path `done ++ todo ++ tail` from the index behind
`done`, when the bytes of `todo` are non-zero and the loop has to stop behind
them, at the end of the field or at a NUL: it ends with `size` behind `todo`
and `todo` written over the memory in front of it. -/
theorem ioctl_copy_stop (path : List Nat) :
    ∀ (todo done pre rest tail : List Nat) (fuel : Nat) (tr : List Event),
      path = done ++ todo ++ tail → pre.length = done.length → todo.length ≤ fuel →
      done.length + todo.length ≤ PATH_SIZE → (∀ b ∈ todo, b ≠ 0) →
      todo.length ≤ rest.length →
      (done.length + todo.length = PATH_SIZE ∨ tail.getD 0 0 = 0) →
      ((ioctl_copy path fuel done.length (pre ++ rest) tr).1 = done.length + todo.length ∧
       (ioctl_copy path fuel done.length (pre ++ rest) tr).2.1
          = pre ++ todo ++ rest.drop todo.length) := by
  intro todo
  induction todo with
  | nil =>
    intro done pre rest tail fuel tr hp hpre _ _ _ _ hstop
    cases fuel with
    | zero => simp [ioctl_copy]
    | succ f =>
      have hc : ¬ (done.length < PATH_SIZE ∧ path.getD done.length 0 ≠ 0) := by
        rintro ⟨h1, h2⟩
        rcases hstop with h | h
        · simp at h; omega
        · apply h2
          rw [hp, List.append_nil, List.getD_eq_getElem?_getD,
            List.getElem?_append_right (Nat.le_refl _), Nat.sub_self,
            ← List.getD_eq_getElem?_getD]
          exact h
      rw [ioctl_copy, if_neg hc]
      simp
  | cons v t ih =>
    intro done pre rest tail fuel tr hp hpre hfuel hsize hnz hrest hstop
    obtain ⟨f, rfl⟩ : ∃ f, fuel = f + 1 := ⟨fuel - 1, by simp at hfuel; omega⟩
    obtain ⟨r, rest', rfl⟩ : ∃ r rest', rest = r :: rest' := by
      cases rest with
      | nil => simp at hrest
      | cons r rest' => exact ⟨r, rest', rfl⟩
    have hget : path.getD done.length 0 = v := by
      rw [hp, List.append_assoc, List.getD_eq_getElem?_getD,
        List.getElem?_append_right (Nat.le_refl _)]
      simp
    have hv : v ≠ 0 := hnz v (by simp)
    have hlt : done.length < PATH_SIZE := by simp at hsize; omega
    have hset : (pre ++ r :: rest').set done.length v = (pre ++ [v]) ++ rest' := by
      rw [← hpre]; simp
    have hstep : ioctl_copy path (f + 1) done.length (pre ++ r :: rest') tr
        = ioctl_copy path f (done ++ [v]).length ((pre ++ [v]) ++ rest')
            (tr ++ [Event.store_path done.length v]) := by
      rw [ioctl_copy, if_pos ⟨hlt, by rw [hget]; exact hv⟩, hget, hset]
      simp
    rw [hstep]
    have := ih (done ++ [v]) (pre ++ [v]) rest' tail f (tr ++ [Event.store_path done.length v])
      (by simp [hp]) (by simp [hpre]) (by simp at hfuel; omega)
      (by simp at hsize ⊢; omega) (fun b hb => hnz b (by simp [hb]))
      (by simp at hrest; omega)
      (by simp at hstop ⊢; omega)
    obtain ⟨ha, hb⟩ := this
    constructor
    · rw [ha, List.length_append, List.length_cons, List.length_cons, List.length_nil]
      omega
    · rw [hb]
      simp

/-- The bytes to copy are the leading part of the caller's string, non-zero, no longer
than the path field, and followed by the end of the field or by a NUL. -/
theorem copied_path_spec (path : List Nat) :
    path = copied_path path ++ path.drop (copied_path path).length ∧
    (copied_path path).length ≤ PATH_SIZE ∧ (∀ b ∈ copied_path path, b ≠ 0) ∧
    ((copied_path path).length = PATH_SIZE ∨
      (path.drop (copied_path path).length).getD 0 0 = 0) := by
  have hsplit := List.takeWhile_append_dropWhile (fun b : Nat => b != 0) (path.take PATH_SIZE)
  have hfull : path = copied_path path ++
      ((path.take PATH_SIZE).dropWhile (fun b : Nat => b != 0) ++ path.drop PATH_SIZE) := by
    rw [← List.append_assoc]
    unfold copied_path
    rw [hsplit, List.take_append_drop]
  have hdrop : path.drop (copied_path path).length =
      (path.take PATH_SIZE).dropWhile (fun b : Nat => b != 0) ++ path.drop PATH_SIZE := by
    exact (congrArg (List.drop (copied_path path).length) hfull).trans (List.drop_left _ _)
  have hle : (copied_path path).length ≤ PATH_SIZE := by
    have h1 : (copied_path path).length ≤ (path.take PATH_SIZE).length := by
      have := congrArg List.length hsplit
      rw [List.length_append] at this
      unfold copied_path
      omega
    have h2 : (path.take PATH_SIZE).length ≤ PATH_SIZE := by
      rw [List.length_take]; exact Nat.min_le_left _ _
    omega
  refine ⟨?_, hle, ?_, ?_⟩
  · rw [hdrop]
    exact hfull
  · intro b hb
    have := List.mem_takeWhile_imp hb
    simpa using this
  · rw [hdrop]
    cases hdw : (path.take PATH_SIZE).dropWhile (fun b : Nat => b != 0) with
    | nil =>
      have hpre : copied_path path = path.take PATH_SIZE := by
        have := hsplit
        rw [hdw, List.append_nil] at this
        exact this
      by_cases hlen : PATH_SIZE ≤ path.length
      · left
        rw [hpre, List.length_take, Nat.min_eq_left hlen]
      · right
        rw [List.nil_append, List.drop_eq_nil_of_le (by omega)]
        rfl
    | cons x r =>
      right
      have hx : ¬ ((fun b : Nat => b != 0) x = true) := by
        have := List.head_dropWhile_not (fun b : Nat => b != 0) (path.take PATH_SIZE)
          (by rw [hdw]; simp)
        simpa [hdw] using this
      have hx0 : x = 0 := by simpa using hx
      simp [hx0]

/-- The state the copy loop of `vmsocket_ioctl` ends in, for every path: the
index behind the bytes to copy, and those bytes written to the front of the
control block when it has room for them. -/
theorem ioctl_copy_copied (path mem : List Nat) :
    (ioctl_copy path PATH_SIZE 0 mem []).1 = (copied_path path).length ∧
    ((copied_path path).length ≤ mem.length →
      (ioctl_copy path PATH_SIZE 0 mem []).2.1
        = copied_path path ++ mem.drop (copied_path path).length) := by
  obtain ⟨h1, h2, h3, h4⟩ := copied_path_spec path
  constructor
  · rw [ioctl_copy_size path PATH_SIZE 0 mem (copied_path path) [] []]
    have := (ioctl_copy_stop path (copied_path path) [] [] (copied_path path)
      (path.drop (copied_path path).length) PATH_SIZE [] (by simpa using h1) rfl h2
      (by simpa using h2) h3 (Nat.le_refl _) (by simpa using h4)).1
    simpa using this
  · intro hm
    have := (ioctl_copy_stop path (copied_path path) [] [] mem
      (path.drop (copied_path path).length) PATH_SIZE [] (by simpa using h1) rfl h2
      (by simpa using h2) h3 hm (by simpa using h4)).2
    simpa using this

/-- Claim C10. For every path, `vmsocket_ioctl` returns 0 exactly when the
connect register returns zero and -1 otherwise. Its trace is: the stores of
the bytes of the path in front of the first NUL (at most 1024 of them) to
`ctrl->path[0..]`, the store of the terminator behind them, then one read of
the connect register, the only register read. The control block returned
holds those bytes and the terminator (when it is mapped past the path
field), so the register is read after the path has been written; no other
field of the instance changes. -/
theorem vmsocket_ioctl_connect (dev : vmsocket_dev) (path : List Nat) (v : Nat) :
    ((vmsocket_ioctl dev path v).1 = 0 ↔ readl v = 0) ∧
    (vmsocket_ioctl dev path v).1 = (if readl v = 0 then 0 else -1) ∧
    register_reads (vmsocket_ioctl dev path v).2.2 = [VMSOCKET_CONNECT_L_REG] ∧
    (copied_path path).length ≤ PATH_SIZE ∧
    (vmsocket_ioctl dev path v).2.2 =
      (List.range (copied_path path).length).map (fun i => Event.store_path i (path.getD i 0))
        ++ [Event.store_path (copied_path path).length 0,
            Event.readl VMSOCKET_CONNECT_L_REG] ∧
    (PATH_SIZE < dev.ctrl_mem.length →
      (vmsocket_ioctl dev path v).2.1.ctrl_mem =
        copied_path path ++ 0 :: dev.ctrl_mem.drop ((copied_path path).length + 1)) ∧
    (vmsocket_ioctl dev path v).2.1 =
      { dev with ctrl_mem := (vmsocket_ioctl dev path v).2.1.ctrl_mem } := by
  have hret : (vmsocket_ioctl dev path v).1 = (if readl v = 0 then 0 else -1) := by
    rw [vmsocket_ioctl_eq dev path v _ rfl]
  obtain ⟨hsize, hmem⟩ := ioctl_copy_copied path dev.ctrl_mem
  have hle := (copied_path_spec path).2.1
  have htr := vmsocket_ioctl_trace dev path v
  rw [hsize] at htr
  refine ⟨?_, hret, ?_, hle, htr, ?_, ?_⟩
  · rw [hret]
    by_cases h : readl v = 0 <;> simp [h]
  · rw [htr]
    simp [register_reads, List.filterMap_append, List.filterMap_map]
  · intro hm
    have hlt : (copied_path path).length < dev.ctrl_mem.length := by omega
    rw [vmsocket_ioctl_eq dev path v _ rfl]
    simp only [hsize, hmem (Nat.le_of_lt hlt)]
    rw [List.set_append_right _ _ (Nat.le_refl _), Nat.sub_self,
      List.drop_eq_getElem_cons hlt, List.set_cons_zero]
  · rw [vmsocket_ioctl_eq dev path v _ rfl]

/-- Witness of `vmsocket_ioctl_connect`: the connect of `"/tmp/sock"` succeeds
when the connect register returns 0 and fails when it returns 1; the control
block then starts with the path and its terminator, and the trace ends with
the terminator store at index 9 and the register read. -/
theorem vmsocket_ioctl_connect_witness :
    (vmsocket_ioctl sample_dev tmp_sock 0).1 = 0 ∧
    (vmsocket_ioctl sample_dev tmp_sock 1).1 = -1 ∧
    (vmsocket_ioctl sample_dev tmp_sock 0).2.1.ctrl_mem =
      tmp_sock ++ 0 :: sample_dev.ctrl_mem.drop 10 ∧
    (vmsocket_ioctl sample_dev tmp_sock 0).2.2 =
      (List.range 9).map (fun i => Event.store_path i (tmp_sock.getD i 0))
        ++ [Event.store_path 9 0, Event.readl VMSOCKET_CONNECT_L_REG] := by
  have hp : copied_path tmp_sock = tmp_sock := by decide
  have h0 := vmsocket_ioctl_connect sample_dev tmp_sock 0
  have h1 := vmsocket_ioctl_connect sample_dev tmp_sock 1
  have hm := h0.2.2.2.2.2.1 (by simp [sample_dev, sample_ctrl])
  have ht := h0.2.2.2.2.1
  rw [hp] at hm ht
  exact ⟨h0.2.1, h1.2.1, hm, ht⟩

/-- Claim C7. A path of non-zero bytes that is no longer than the 1024-byte
path field is read back unchanged after `vmsocket_ioctl`, both as the string
that ends at the first NUL or at the end of the field, and as the C string at
the start of the control block. -/
theorem vmsocket_ioctl_roundtrip (dev : vmsocket_dev) (path : List Nat) (v : Nat)
    (hnz : ∀ b ∈ path, b ≠ 0) (hlen : path.length ≤ PATH_SIZE)
    (hmem : CTRL_SIZE ≤ dev.ctrl_mem.length) :
    ctrl_path (vmsocket_ioctl dev path v).2.1.ctrl_mem = path ∧
    cstring (vmsocket_ioctl dev path v).2.1.ctrl_mem = path := by
  have hm : PATH_SIZE < dev.ctrl_mem.length := by
    have : CTRL_SIZE = PATH_SIZE + 8 := rfl
    omega
  have hp : ∀ b ∈ path, (fun b : Nat => b != 0) b = true := by
    intro b hb
    simpa using hnz b hb
  rw [(vmsocket_ioctl_mem dev path v hnz hlen hm).2]
  constructor
  · unfold ctrl_path
    rw [List.take_append_eq_append_take, List.take_of_length_le hlen,
      List.takeWhile_append_of_pos hp]
    cases hk : PATH_SIZE - path.length with
    | zero => simp
    | succ k => simp
  · unfold cstring
    rw [List.takeWhile_append_of_pos hp]
    simp

/-- Witness of `vmsocket_ioctl_roundtrip`: the path `"/tmp/sock"`. -/
theorem vmsocket_ioctl_roundtrip_witness :
    ctrl_path (vmsocket_ioctl sample_dev tmp_sock 0).2.1.ctrl_mem = tmp_sock ∧
    cstring (vmsocket_ioctl sample_dev tmp_sock 0).2.1.ctrl_mem = tmp_sock :=
  vmsocket_ioctl_roundtrip sample_dev tmp_sock 0 (by decide) (by decide)
    (by simp [sample_dev, sample_ctrl, CTRL_SIZE])

/-- Claim C1, evaluated at a path of 1024 non-zero bytes. The stores go to
the indices 0..1024 of `path`: the terminator is stored at index 1024, one
past the 1024-byte field, which is the first byte of `bytes_to_read`; the
field held 7 before the call and holds 0 after it. -/
theorem vmsocket_ioctl_overrun :
    long_path.length = 1024 ∧ (∀ b ∈ long_path, b ≠ 0) ∧
    path_stores (vmsocket_ioctl sample_dev long_path 0).2.2 = List.range (1024 + 1) ∧
    Event.store_path 1024 0 ∈ (vmsocket_ioctl sample_dev long_path 0).2.2 ∧
    bytes_to_read sample_dev.ctrl_mem = 7 ∧
    bytes_to_read (vmsocket_ioctl sample_dev long_path 0).2.1.ctrl_mem = 0 := by
  have hP : (1024 : Nat) = PATH_SIZE := rfl
  rw [hP]
  have hlen : long_path.length = PATH_SIZE := by simp [long_path]
  have hnz : ∀ b ∈ long_path, b ≠ 0 := by
    intro b hb
    rw [List.eq_of_mem_replicate hb]
    decide
  have hmem : PATH_SIZE < sample_dev.ctrl_mem.length := by
    simp [sample_dev, sample_ctrl]
  obtain ⟨hsize, hm⟩ := vmsocket_ioctl_mem sample_dev long_path 0 hnz (Nat.le_of_eq hlen) hmem
  have htr := vmsocket_ioctl_trace sample_dev long_path 0
  rw [hsize, hlen] at htr
  have hold : bytes_to_read sample_dev.ctrl_mem = 7 := by
    have := load32_append (List.replicate PATH_SIZE 0) [7, 0, 0, 0, 9, 0, 0, 0] 0
    simp only [List.length_replicate, Nat.add_zero] at this
    simp only [bytes_to_read, OFF_BYTES_TO_READ, sample_dev, sample_ctrl, this]
    simp [load32]
  refine ⟨hlen, hnz, ?_, ?_, hold, ?_⟩
  · rw [htr, path_stores_append, path_stores_map, List.range_succ]
    rfl
  · rw [htr]; simp
  · rw [hm, hlen]
    have := load32_append long_path (0 :: List.drop (PATH_SIZE + 1) sample_dev.ctrl_mem) 0
    simp only [hlen, Nat.add_zero] at this
    unfold bytes_to_read OFF_BYTES_TO_READ
    rw [this]
    have hd : List.drop (PATH_SIZE + 1) sample_dev.ctrl_mem = [0, 0, 0, 9, 0, 0, 0] := by
      have := @List.drop_append Nat (List.replicate PATH_SIZE 0) [7, 0, 0, 0, 9, 0, 0, 0] 1
      simpa [sample_dev, sample_ctrl] using this
    rw [hd]
    simp [load32]

/-! ## `vmsocket_read` and `vmsocket_write` -/

/-- The poll loop over register values of which `pre` are above the limit and
`v` is the first that is not: it reads the register once per value of `pre`
and once for `v`, and ends with `v`. -/
theorem read_poll_run (limit : Int) (pre : List Nat) (v : Nat) (post : List Nat)
    (hpre : ∀ x ∈ pre, int32 (readl x) > limit) (hv : ¬ int32 (readl v) > limit) :
    read_poll limit (pre ++ v :: post) = some (int32 (readl v), pre.length + 1, post) := by
  induction pre with
  | nil => simp [read_poll, hv]
  | cons x t ih =>
    have hx : int32 (readl x) > limit := hpre x (by simp)
    have ht := ih (fun y hy => hpre y (by simp [hy]))
    simp [read_poll, hx, ht]

/-- The function `vmsocket_read` on a control block that is mapped in full:
the limit of the poll loop is the clamped count, converted to `int`. -/
theorem vmsocket_read_eq (bits : Nat) (dev : vmsocket_dev) (count : Nat) (regs : List Nat)
    (copy_result : Nat) (hmem : CTRL_SIZE ≤ dev.ctrl_mem.length)
    (readed : Int) (polls : Nat) (rest : List Nat)
    (hpoll : read_poll (int32 (u32 (min count dev.in_size))) regs = some (readed, polls, rest)) :
    vmsocket_read bits dev count regs copy_result =
      some { ret := if copy_result ≠ 0 then -EFAULT else readed,
             dev := { dev with
               ctrl_mem := store32 dev.ctrl_mem OFF_BYTES_TO_READ (u32 (min count dev.in_size)) },
             polls := polls, copy_len := to_ulong bits readed,
             trace := [Event.store_bytes_to_read (u32 (min count dev.in_size))]
               ++ List.replicate polls (Event.readl VMSOCKET_READ_L_REG)
               ++ [Event.copy_to_user (to_ulong bits readed)] } := by
  have hm : OFF_BYTES_TO_READ + 4 ≤ dev.ctrl_mem.length := by
    have h1 : CTRL_SIZE = PATH_SIZE + 8 := rfl
    have h2 : OFF_BYTES_TO_READ = PATH_SIZE := rfl
    omega
  have hl : bytes_to_read (store32 dev.ctrl_mem OFF_BYTES_TO_READ (u32 (min count dev.in_size)))
      = u32 (min count dev.in_size) := by
    unfold bytes_to_read
    rw [load32_store32 _ _ _ hm]
    simp [u32]
  unfold vmsocket_read
  simp only [hl, hpoll]

theorem sample_ctrl_length : CTRL_SIZE ≤ sample_dev.ctrl_mem.length := by
  simp [sample_dev, sample_ctrl, CTRL_SIZE]

/-- Claim C2, evaluated at `count = 100`, `in_size = 4096` and a read register
that returns `0x80000000`. As an `int` the value is negative, so the poll
loop ends on it at once, and `copy_to_user` is asked for that `int` converted
to `unsigned long`: 2^64 - 2^31 bytes with 64-bit longs, 2^31 bytes with
32-bit longs, where `min(count, in_size)` is 100. -/
theorem vmsocket_read_negative_length :
    min 100 sample_dev.in_size = 100 ∧
    (vmsocket_read 64 sample_dev 100 [0x80000000] 0).map
        (fun r => (r.polls, r.copy_len, copy_lengths r.trace))
      = some (1, 2 ^ 64 - 2 ^ 31, [2 ^ 64 - 2 ^ 31]) ∧
    (vmsocket_read 32 sample_dev 100 [0x80000000] 0).map
        (fun r => (r.polls, r.copy_len, copy_lengths r.trace))
      = some (1, 2 ^ 31, [2 ^ 31]) := by
  have hpoll : read_poll (int32 (u32 (min 100 sample_dev.in_size))) [0x80000000]
      = some (-2147483648, 1, []) := by
    simp [read_poll, int32, u32, readl, sample_dev]
  refine ⟨by simp [sample_dev], ?_, ?_⟩
  · rw [vmsocket_read_eq 64 sample_dev 100 _ 0 sample_ctrl_length _ _ _ hpoll]
    simp [to_ulong, copy_lengths]
  · rw [vmsocket_read_eq 32 sample_dev 100 _ 0 sample_ctrl_length _ _ _ hpoll]
    simp [to_ulong, copy_lengths]

/-- Claim C9 as stated fails, in two ways. With `count = 100`,
`in_size = 4096` and the register values `[0x80000000, 80]`, the value 80 is
at most `bytes_to_read` and `0x80000000` is greater, yet the loop stops at
`0x80000000` after one register read and `vmsocket_read` returns
`-2147483648`, not 80. With `count = in_size = 0x80000000` and the register
values `[5, 0x80000000]`, the value 5 is at most `bytes_to_read`, yet the
loop polls past it and `vmsocket_read` returns `-2147483648` after two
register reads. -/
theorem vmsocket_read_poll_unsigned_fails :
    (min 100 sample_dev.in_size = 100 ∧ 80 ∈ [0x80000000, 80] ∧ 80 ≤ 100 ∧ 100 < 0x80000000 ∧
      (vmsocket_read 64 sample_dev 100 [0x80000000, 80] 0).map
          (fun r => (r.ret, r.polls, register_reads r.trace))
        = some (-2147483648, 1, [VMSOCKET_READ_L_REG])) ∧
    (min 0x80000000 wide_dev.in_size = 0x80000000 ∧ 5 ≤ 0x80000000 ∧
      (vmsocket_read 64 wide_dev 0x80000000 [5, 0x80000000] 0).map
          (fun r => (r.ret, r.polls, register_reads r.trace))
        = some (-2147483648, 2, [VMSOCKET_READ_L_REG, VMSOCKET_READ_L_REG])) := by
  have hpoll : read_poll (int32 (u32 (min 100 sample_dev.in_size))) [0x80000000, 80]
      = some (-2147483648, 1, [80]) := by
    simp [read_poll, int32, u32, readl, sample_dev]
  have hpoll2 : read_poll (int32 (u32 (min 0x80000000 wide_dev.in_size))) [5, 0x80000000]
      = some (-2147483648, 2, []) := by
    simp [read_poll, int32, u32, readl, wide_dev]
  refine ⟨⟨by simp [sample_dev], by simp, by decide, by decide, ?_⟩,
    ⟨by simp [wide_dev], by decide, ?_⟩⟩
  · rw [vmsocket_read_eq 64 sample_dev 100 _ 0 sample_ctrl_length _ _ _ hpoll]
    simp [register_reads]
  · rw [vmsocket_read_eq 64 wide_dev 0x80000000 _ 0 sample_ctrl_length _ _ _ hpoll2]
    simp [register_reads]

/-- Claim C9, amended. When `bytes_to_read = min(count, in_size)` and the
register values polled are below 2^31 (non-negative as `int`), and the
register returns the values `pre`, all greater than `bytes_to_read`, then a
value `v` that is at most `bytes_to_read`: `vmsocket_read` returns, having
stored `bytes_to_read`, read the read register once per value of `pre` and
once for `v` and no other register, asked `copy_to_user` for `v` bytes, and
its result is `v` when the copy succeeds (`-EFAULT` otherwise). -/
theorem vmsocket_read_poll (bits : Nat) (dev : vmsocket_dev) (count : Nat)
    (pre : List Nat) (v : Nat) (post : List Nat) (copy_result : Nat)
    (hbits : 32 ≤ bits) (hmem : CTRL_SIZE ≤ dev.ctrl_mem.length)
    (hbtr : min count dev.in_size < 2 ^ 31)
    (hpre : ∀ x ∈ pre, min count dev.in_size < x ∧ x < 2 ^ 31)
    (hv : v ≤ min count dev.in_size) :
    ∃ r, vmsocket_read bits dev count (pre ++ v :: post) copy_result = some r ∧
      bytes_to_read r.dev.ctrl_mem = min count dev.in_size ∧
      r.polls = pre.length + 1 ∧
      register_reads r.trace = List.replicate (pre.length + 1) VMSOCKET_READ_L_REG ∧
      copy_lengths r.trace = [v] ∧
      r.ret = (if copy_result = 0 then (v : Int) else -EFAULT) := by
  have hu : u32 (min count dev.in_size) = min count dev.in_size := u32_of_lt _ (by omega)
  have hlim : int32 (u32 (min count dev.in_size)) = ((min count dev.in_size : Nat) : Int) := by
    rw [hu, int32_of_lt _ hbtr]
  have hrv : int32 (readl v) = (v : Int) := by
    have : readl v = v := u32_of_lt _ (by omega)
    rw [this, int32_of_lt _ (by omega)]
  have hpoll := read_poll_run (int32 (u32 (min count dev.in_size))) pre v post
    (by
      intro x hx
      obtain ⟨h1, h2⟩ := hpre x hx
      have : readl x = x := u32_of_lt _ (by omega)
      rw [this, int32_of_lt _ h2, hlim]
      exact_mod_cast h1)
    (by
      rw [hrv, hlim]
      have : (v : Int) ≤ ((min count dev.in_size : Nat) : Int) := by exact_mod_cast hv
      omega)
  have hm : OFF_BYTES_TO_READ + 4 ≤ dev.ctrl_mem.length := by
    have h1 : CTRL_SIZE = PATH_SIZE + 8 := rfl
    have h2 : OFF_BYTES_TO_READ = PATH_SIZE := rfl
    omega
  have hlen : to_ulong bits (v : Int) = v := by
    have h2 : (2 : Nat) ^ 32 ≤ 2 ^ bits := Nat.pow_le_pow_right (by norm_num) hbits
    have hvlt : v < 2 ^ bits := by omega
    unfold to_ulong
    have : ((v : Int) % 2 ^ bits) = (v : Int) := by
      apply Int.emod_eq_of_lt (by omega)
      exact_mod_cast hvlt
    rw [this]
    simp
  refine ⟨_, vmsocket_read_eq bits dev count _ copy_result hmem _ _ _ hpoll, ?_, rfl, ?_, ?_, ?_⟩
  · show bytes_to_read (store32 dev.ctrl_mem OFF_BYTES_TO_READ (u32 (min count dev.in_size))) = _
    unfold bytes_to_read
    rw [load32_store32 _ _ _ hm, hu, hu]
  · simp [register_reads, List.filterMap_append, List.filterMap_replicate]
  · simp [copy_lengths, List.filterMap_append, List.filterMap_replicate, hrv, hlen]
  · simp only [hrv]
    by_cases hc : copy_result = 0 <;> simp [hc]

/-- Witness of `vmsocket_read_poll`: a request for 100 bytes with the register
returning 150, 150, 80 polls three times and returns 80. -/
theorem vmsocket_read_poll_witness :
    ∃ r, vmsocket_read 64 sample_dev 100 [150, 150, 80] 0 = some r ∧
      bytes_to_read r.dev.ctrl_mem = 100 ∧ r.polls = 3 ∧
      register_reads r.trace = [VMSOCKET_READ_L_REG, VMSOCKET_READ_L_REG, VMSOCKET_READ_L_REG] ∧
      copy_lengths r.trace = [80] ∧ r.ret = 80 := by
  have h := vmsocket_read_poll 64 sample_dev 100 [150, 150] 80 [] 0 (by decide)
    sample_ctrl_length (by decide) (by decide) (by decide)
  simpa [sample_dev] using h

/-- The function `vmsocket_write` on a control block that is mapped in full. -/
theorem vmsocket_write_mem (bits : Nat) (dev : vmsocket_dev) (count copy_result write_reg : Nat)
    (hmem : CTRL_SIZE ≤ dev.ctrl_mem.length) :
    bytes_to_write (vmsocket_write bits dev count copy_result write_reg).2.1.ctrl_mem
      = u32 (min count dev.out_size) ∧
    copy_lengths (vmsocket_write bits dev count copy_result write_reg).2.2
      = [u32 (min count dev.out_size)] := by
  have hm : OFF_BYTES_TO_WRITE + 4 ≤ dev.ctrl_mem.length := by
    have h1 : CTRL_SIZE = PATH_SIZE + 8 := rfl
    have h2 : OFF_BYTES_TO_WRITE = PATH_SIZE + 4 := rfl
    omega
  have hl : bytes_to_write (store32 dev.ctrl_mem OFF_BYTES_TO_WRITE (u32 (min count dev.out_size)))
      = u32 (min count dev.out_size) := by
    unfold bytes_to_write
    rw [load32_store32 _ _ _ hm]
    simp [u32]
  unfold vmsocket_write
  by_cases hc : copy_result = 0
  · simp [hc, hl, copy_lengths]
  · simp [hc, hl, copy_lengths]

/-- Claim C3. For every `count` and every output-buffer size (a `uint32_t`),
`vmsocket_write` leaves `bytes_to_write == min(count, out_size)` in the
control block, and its one user copy, `copy_from_user` into the output
buffer, is for exactly that many bytes. -/
theorem vmsocket_write_clamp (bits : Nat) (dev : vmsocket_dev)
    (count copy_result write_reg : Nat)
    (hsize : dev.out_size < 2 ^ 32) (hmem : CTRL_SIZE ≤ dev.ctrl_mem.length) :
    bytes_to_write (vmsocket_write bits dev count copy_result write_reg).2.1.ctrl_mem
      = min count dev.out_size ∧
    copy_lengths (vmsocket_write bits dev count copy_result write_reg).2.2
      = [min count dev.out_size] ∧
    Event.copy_from_user (min count dev.out_size)
      ∈ (vmsocket_write bits dev count copy_result write_reg).2.2 := by
  have hu : u32 (min count dev.out_size) = min count dev.out_size :=
    u32_of_lt _ (by omega)
  obtain ⟨h1, h2⟩ := vmsocket_write_mem bits dev count copy_result write_reg hmem
  rw [hu] at h1 h2
  refine ⟨h1, h2, ?_⟩
  have hb : bytes_to_write
      (store32 dev.ctrl_mem OFF_BYTES_TO_WRITE (u32 (min count dev.out_size)))
      = min count dev.out_size := by
    by_cases hc : copy_result = 0
    · simpa [vmsocket_write, hc] using h1
    · simpa [vmsocket_write, hc] using h1
  unfold vmsocket_write
  by_cases hc : copy_result = 0
  · simp [hc, hb]
  · simp [hc, hb]

/-- Witness of `vmsocket_write_clamp`: with `out_size = 2048`, a write of 4096
bytes leaves `bytes_to_write == 2048` and a write of 0 bytes leaves 0. -/
theorem vmsocket_write_clamp_witness :
    (bytes_to_write (vmsocket_write 64 sample_dev 4096 0 2048).2.1.ctrl_mem = 2048 ∧
      copy_lengths (vmsocket_write 64 sample_dev 4096 0 2048).2.2 = [2048]) ∧
    (bytes_to_write (vmsocket_write 64 sample_dev 0 0 0).2.1.ctrl_mem = 0 ∧
      copy_lengths (vmsocket_write 64 sample_dev 0 0 0).2.2 = [0]) := by
  have h1 := vmsocket_write_clamp 64 sample_dev 4096 0 2048 (by decide) sample_ctrl_length
  have h2 := vmsocket_write_clamp 64 sample_dev 0 0 0 (by decide) sample_ctrl_length
  exact ⟨⟨by simpa [sample_dev] using h1.1, by simpa [sample_dev] using h1.2.1⟩,
    ⟨by simpa [sample_dev] using h2.1, by simpa [sample_dev] using h2.2.1⟩⟩

/-! ## `vmsocket_open` and `vmsocket_release` -/

theorem set_of_getElem? {α : Type} (l : List α) (i : Nat) (a : α) (h : l[i]? = some a) :
    l.set i a = l := by
  apply List.ext_getElem?
  intro j
  rw [List.getElem?_set]
  by_cases hij : i = j
  · subst hij
    have hlt : i < l.length := by
      by_contra hn
      rw [List.getElem?_eq_none (by omega)] at h
      exact Option.noConfusion h
    simp [hlt, h]
  · simp [hij]

/-- Claim C4. On an instance whose availability counter is 0, `vmsocket_open`
returns `-EBUSY` and leaves the globals, the counter included, and the file
handle as they were; on an instance whose counter is 1 it returns 0, sets the
counter to 0 and binds the handle to the table entry of the minor index. -/
theorem vmsocket_open_single (st : State) (minor : Nat) (filp : file) (dev : vmsocket_dev)
    (hdev : st.vmsocket_dev[minor]? = some dev) :
    (dev.available = 0 →
      vmsocket_open st minor filp = .ok (-EBUSY, st, filp)) ∧
    (dev.available = 1 →
      vmsocket_open st minor filp =
        .ok (0, { st with vmsocket_dev := st.vmsocket_dev.set minor { dev with available := 0 } },
          { filp with private_data := some minor })) := by
  constructor
  · intro h0
    have hd : { dev with available := 0 } = dev := by
      cases dev
      simp_all
    have hs : st.vmsocket_dev.set minor dev = st.vmsocket_dev := set_of_getElem? _ _ _ hdev
    simp [vmsocket_open, hdev, atomic_dec_and_test, atomic_inc, wrap32, h0, hd, hs]
  · intro h1
    simp [vmsocket_open, hdev, atomic_dec_and_test, wrap32, h1]

/-- Witness of `vmsocket_open_single`: an open of a closed instance succeeds
and binds the handle; a second open of the same instance returns `-EBUSY`. -/
theorem vmsocket_open_single_witness :
    vmsocket_open (sample_state 1) 0 ⟨none⟩ =
      .ok (0, { sample_state 1 with
                vmsocket_dev := (sample_state 1).vmsocket_dev.set 0
                  { sample_dev with available := 0 } }, ⟨some 0⟩) ∧
    vmsocket_open { sample_state 1 with
                    vmsocket_dev := (sample_state 1).vmsocket_dev.set 0
                      { sample_dev with available := 0 } } 0 ⟨none⟩ =
      .ok (-EBUSY, { sample_state 1 with
                vmsocket_dev := (sample_state 1).vmsocket_dev.set 0
                  { sample_dev with available := 0 } }, ⟨none⟩) :=
  ⟨(vmsocket_open_single (sample_state 1) 0 ⟨none⟩ sample_dev
      (List.getElem?_replicate_of_lt (by decide))).2 rfl,
   (vmsocket_open_single _ 0 ⟨none⟩ { sample_dev with available := 0 }
      (by simp [sample_state, List.getElem?_set,
        show (0 : Nat) < VMSOCKET_NDEV from by decide])).1 rfl⟩

/-- Claim C5. On an open instance (availability 0), whatever the close
register returns, `vmsocket_release` reads the close register once, leaves
the availability counter at 1, and returns the register value converted to
`int`: the same 32 bits, zero exactly when the register value is zero. -/
theorem vmsocket_release_available (dev : vmsocket_dev) (close_reg : Nat)
    (hopen : dev.available = 0) :
    (vmsocket_release dev close_reg).2.1 = { dev with available := 1 } ∧
    (vmsocket_release dev close_reg).2.1.available = 1 ∧
    (vmsocket_release dev close_reg).1 = int32 (readl close_reg) ∧
    (vmsocket_release dev close_reg).1 % 2 ^ 32 = (readl close_reg : Int) ∧
    ((vmsocket_release dev close_reg).1 = 0 ↔ readl close_reg = 0) ∧
    (vmsocket_release dev close_reg).2.2 = [Event.readl VMSOCKET_CLOSE_L_REG] := by
  have hr : readl close_reg < 2 ^ 32 := Nat.mod_lt _ (by norm_num)
  have hmod : readl close_reg % 2 ^ 32 = readl close_reg := Nat.mod_eq_of_lt hr
  have hav : atomic_inc dev.available = 1 := by
    rw [hopen]; simp [atomic_inc, wrap32]
  refine ⟨?_, ?_, rfl, ?_, ?_, rfl⟩
  · simp [vmsocket_release, hav]
  · simp [vmsocket_release, hav]
  · show int32 (readl close_reg) % 2 ^ 32 = _
    unfold int32
    rw [hmod]
    split <;> omega
  · show int32 (readl close_reg) = 0 ↔ _
    unfold int32
    rw [hmod]
    split <;> omega

/-- Witness of `vmsocket_release_available`: a close register that returns the
non-zero status 5 still leaves the instance available. -/
theorem vmsocket_release_available_witness :
    (vmsocket_release { sample_dev with available := 0 } 5).2.1.available = 1 ∧
    (vmsocket_release { sample_dev with available := 0 } 5).1 = 5 := by
  have h := vmsocket_release_available { sample_dev with available := 0 } 5 rfl
  exact ⟨h.2.1, by rw [h.2.2.1]; decide⟩

/-! ## `vmsocket_probe` -/

/-- Claim C6. In a probe that reaches the mappings, with the table slot
`vmsocket_dev[vmsocket_minor]` in range: if region `k` of 0..3 fails to map
after regions `0..k-1` mapped, the probe returns its error (`-EBUSY`) after
it has handed to `pci_iounmap` the mappings of regions `k-1, ..., 0`, each
once and nothing else, then released the PCI regions and disabled the
device, in this order; no endpoint is registered or published and
`vmsocket_minor` and `fc` are as before. -/
theorem vmsocket_probe_rollback (st : State) (pdev : pci_dev) (k : Nat) (d0 : vmsocket_dev)
    (hk : k ≤ 3) (hslot : st.vmsocket_dev[st.vmsocket_minor]? = some d0)
    (hen : pdev.enable_result = 0) (hreq : 0 ≤ pdev.request_result)
    (hok : ∀ i, i < k → pdev.iomap i ≠ 0) (hfail : pdev.iomap k = 0) :
    ∃ st' tr, vmsocket_probe st pdev = .ok (-EBUSY, st', tr) ∧
      mapped tr = List.range (k + 1) ∧
      unmapped tr = ((List.range k).map pdev.iomap).reverse ∧
      (∃ pre, tr = pre ++ ((List.range k).map (fun i => Event.pci_iounmap (pdev.iomap i))).reverse
          ++ [Event.pci_release_regions, Event.pci_disable_device] ∧
        unmapped pre = [] ∧ Event.pci_release_regions ∉ pre ∧
        Event.pci_disable_device ∉ pre) ∧
      published tr = [] ∧
      st'.vmsocket_minor = st.vmsocket_minor ∧ st'.fc = st.fc := by
  have hreq' : ¬ pdev.request_result < 0 := by omega
  interval_cases k
  · refine ⟨_, _, by simp [vmsocket_probe, hen, hslot, hreq', hfail]; exact ⟨rfl, rfl⟩,
      by simp [mapped, List.range_succ], by simp [unmapped],
      ⟨[Event.pci_enable_device, Event.pci_request_regions, Event.pci_iomap 0 0x100],
        by simp, by simp [unmapped], by simp, by simp⟩,
      by simp [published], by simp [put_dev], by simp [put_dev]⟩
  · have h0 := hok 0 (by omega)
    refine ⟨_, _, by simp [vmsocket_probe, hen, hslot, hreq', hfail, h0]; exact ⟨rfl, rfl⟩,
      by simp [mapped, List.range_succ], by simp [unmapped, List.range_succ],
      ⟨[Event.pci_enable_device, Event.pci_request_regions, Event.pci_iomap 0 0x100,
          Event.pci_iomap 1 0],
        by simp [List.range_succ], by simp [unmapped], by simp, by simp⟩,
      by simp [published], by simp [put_dev], by simp [put_dev]⟩
  · have h0 := hok 0 (by omega)
    have h1 := hok 1 (by omega)
    refine ⟨_, _, by simp [vmsocket_probe, hen, hslot, hreq', hfail, h0, h1]; exact ⟨rfl, rfl⟩,
      by simp [mapped, List.range_succ], by simp [unmapped, List.range_succ],
      ⟨[Event.pci_enable_device, Event.pci_request_regions, Event.pci_iomap 0 0x100,
          Event.pci_iomap 1 0, Event.pci_iomap 2 0],
        by simp [List.range_succ], by simp [unmapped], by simp, by simp⟩,
      by simp [published], by simp [put_dev], by simp [put_dev]⟩
  · have h0 := hok 0 (by omega)
    have h1 := hok 1 (by omega)
    have h2 := hok 2 (by omega)
    refine ⟨_, _, by simp [vmsocket_probe, hen, hslot, hreq', hfail, h0, h1, h2]; exact ⟨rfl, rfl⟩,
      by simp [mapped, List.range_succ], by simp [unmapped, List.range_succ],
      ⟨[Event.pci_enable_device, Event.pci_request_regions, Event.pci_iomap 0 0x100,
          Event.pci_iomap 1 0, Event.pci_iomap 2 0, Event.pci_iomap 3 0],
        by simp [List.range_succ], by simp [unmapped], by simp, by simp⟩,
      by simp [published], by simp [put_dev], by simp [put_dev]⟩

/-- Witness of `vmsocket_probe_rollback`: region 2 fails to map with three
instances registered; the mappings of regions 1 and 0 are undone, in this
order, and the minor counter stays at 3. -/
theorem vmsocket_probe_rollback_witness :
    ∃ st' tr, vmsocket_probe (sample_state 3) (failing_pdev 2) = .ok (-EBUSY, st', tr) ∧
      mapped tr = [0, 1, 2] ∧ unmapped tr = [0x2000, 0x1000] ∧ published tr = [] ∧
      st'.vmsocket_minor = 3 := by
  obtain ⟨st', tr, h1, h2, h3, -, h5, h6, -⟩ :=
    vmsocket_probe_rollback (sample_state 3) (failing_pdev 2) 2 sample_dev (by decide)
      (List.getElem?_replicate_of_lt (by decide)) rfl (by decide)
      (by
        intro i hi
        interval_cases i <;> simp [failing_pdev])
      (by simp [failing_pdev])
  refine ⟨st', tr, h1, ?_, ?_, h5, h6⟩
  · rw [h2]; rfl
  · rw [h3]; simp [List.range_succ, failing_pdev]

/-- Claim C8, evaluated with 128 instances registered (`vmsocket_minor == 128`,
a table of 128 entries) and a device for which every kernel service
succeeds. The probe has no capacity check: after `pci_enable_device` it
indexes `vmsocket_dev[128]`, one past the end of the table, instead of
returning an error. -/
theorem vmsocket_probe_table_full :
    (sample_state 128).vmsocket_minor = 128 ∧
    (sample_state 128).vmsocket_dev.length = 128 ∧
    sample_pdev.enable_result = 0 ∧
    vmsocket_probe (sample_state 128) sample_pdev = .error (.out_of_bounds 128) := by
  have hnone : (sample_state 128).vmsocket_dev[(sample_state 128).vmsocket_minor]? = none := by
    apply List.getElem?_eq_none
    simp [sample_state, VMSOCKET_NDEV]
  refine ⟨rfl, by simp [sample_state, VMSOCKET_NDEV], rfl, ?_⟩
  unfold vmsocket_probe
  rw [hnone]
  simp [sample_pdev, sample_state]

end VMSocket
